import Mathlib

/-!
Verification development for the `api-wilayah-indonesia` repository.

The core under study is the resumable parallel crawl engine of the scraper
(`scrapeAll`, `processKabupatenParallel`, `processKabupaten`, `processKecamatan`,
`normalizeText`, `normalizeData`, `loadCheckpoint`) together with the code-based
lookup of the read API (`getWilayahInfo`, `findProvinsi`, `findKabupaten`,
`findKecamatan`).

Modelling choices (shallow embedding):
* Go strings are lists of characters (`Str`, i.e. `List Char`); the region codes in
  play are plain ASCII, so the byte/char distinction is immaterial.
* The remote API is an environment `Env` mapping each endpoint call to either a
  decoded `{code: name}` object (as an association list in arrival order) or a
  fetch failure. Iteration order of a decoded Go map is unspecified; the list
  order of the environment stands for the arrival order actually used.
* Cooperative cancellation is modelled by a logical clock: every `getJSON` call
  advances the clock by one, and every `select ctx.Done()` check observes
  `cancelled cAt t`, which becomes (and stays) true once the clock reaches the
  cancellation instant `cAt`. `cAt = none` means cancellation is never signaled.
  This captures the source's cooperative checks: an in-flight fetch always
  completes, and cancellation is observed at the next check point.
* The regency worker pool is sequentialized for the data-flow model (jobs are
  processed in dispatch order; the source collects results in completion order
  and guarantees no order). The concurrency bound itself is modelled separately
  as a transition system (`PoolSt`, `PoolStep`) reflecting the fixed number of
  worker goroutines, each of which processes at most one job at a time.
* The file system is explicit state: the checkpoint file is an
  `Option (Except Unit WilayahData)` (absent, corrupt, or parseable content);
  `saveToFile`/`os.Remove` become field updates of the run state.
-/

namespace ApiWilayah

/-- Go strings modelled as lists of characters. -/
abbrev Str := List Char

/-- The backslash character. -/
def bsl : Char := Char.ofNat 92

/-- The single-quote character. -/
def sq : Char := Char.ofNat 39

/-- The double-quote character. -/
def dq : Char := Char.ofNat 34

/-- The forward-slash character. -/
def slashc : Char := Char.ofNat 47

/-- Fuelled core of Go's `strings.ReplaceAll`: scan left to right, replacing
non-overlapping occurrences of `p` by `r`. The fuel only makes the recursion
structural; `replaceAll` instantiates it with enough fuel. -/
def raF (p r : Str) : Nat → Str → Str
  | 0, s => s
  | _ + 1, [] => []
  | f + 1, c :: rest =>
    if !p.isEmpty && p.isPrefixOf (c :: rest) then
      r ++ raF p r f ((c :: rest).drop p.length)
    else
      c :: raF p r f rest

/-- `strings.ReplaceAll(s, p, r)` for a nonempty pattern `p` (all patterns used
by the source are nonempty; for `p = []` this is the identity, unlike Go). -/
def replaceAll (p r s : Str) : Str := raF p r s.length s

/-- The `replacements` map literal of `normalizeText`, in source order.
The Go map iteration order is unspecified; this embedding fixes the textual
order of the map literal. -/
def replacements : List (Str × Str) :=
  [ ([bsl, sq], [sq]),
    ([bsl, dq], [dq]),
    ([bsl, bsl], [bsl]),
    ([bsl, slashc], [slashc]),
    ([bsl, 'u', '0', '0', '2', '7'], [sq]),
    ([bsl, 'u', '0', '0', '2', '2'], [dq]) ]

/-- `normalizeText`: apply each replacement with `strings.ReplaceAll` in turn. -/
def normalizeText (s : Str) : Str :=
  replacements.foldl (fun acc pr => replaceAll pr.1 pr.2 acc) s

/-- Decoded JSON values as seen by `normalizeData` after `json.Unmarshal` into
`map[string]interface{}`: strings, nested objects, arrays, and the remaining
scalar kinds (numbers decode to float64, here abstracted as `Int`; booleans;
null). -/
inductive JVal where
  | str : Str → JVal
  | obj : List (Str × JVal) → JVal
  | arr : List JVal → JVal
  | num : Int → JVal
  | bool : Bool → JVal
  | null : JVal

mutual

/-- The per-value switch of `normalizeData`: strings are normalized, nested
objects are recursed into, every other kind of value (arrays included) hits the
`default` branch and is returned unchanged. -/
def normalizeValue : JVal → JVal
  | .str s => .str (normalizeText s)
  | .obj fs => .obj (normalizeData fs)
  | v => v

/-- `normalizeData`: rebuild the object, normalizing each value. -/
def normalizeData : List (Str × JVal) → List (Str × JVal)
  | [] => []
  | (k, v) :: rest => (k, normalizeValue v) :: normalizeData rest

end

/-- Village (leaf) node. -/
structure Desa where
  ID : Str
  Nama : Str
deriving DecidableEq

/-- District node. -/
structure Kecamatan where
  ID : Str
  Nama : Str
  Des : List Desa
deriving DecidableEq

/-- Regency node. -/
structure Kabupaten where
  ID : Str
  Nama : Str
  Kec : List Kecamatan
deriving DecidableEq

/-- Province node. -/
structure Provinsi where
  ID : Str
  Nama : Str
  Kab : List Kabupaten
deriving DecidableEq

/-- The root collection (`{"pro": [...]}`), province ordering = insertion order. -/
structure WilayahData where
  Pro : List Provinsi
deriving DecidableEq

/-- `findProvinsi`: first province with the given ID, if any. -/
def findProvinsi (data : WilayahData) (proID : Str) : Option Provinsi :=
  data.Pro.find? (fun p => p.ID == proID)

/-- `findKabupaten`: first regency of `p` with the given ID. -/
def findKabupaten (p : Provinsi) (kabID : Str) : Option Kabupaten :=
  p.Kab.find? (fun k => k.ID == kabID)

/-- `findKecamatan`: first district of `k` with the given ID. -/
def findKecamatan (k : Kabupaten) (kecID : Str) : Option Kecamatan :=
  k.Kec.find? (fun c => c.ID == kecID)

/-- The inline village search of `getWilayahInfo`'s 10-digit case (loop with
`break` = first match). -/
def findDesa (k : Kecamatan) (desID : Str) : Option Desa :=
  k.Des.find? (fun d => d.ID == desID)

/-- The resolved node returned by `getWilayahInfo` (the JSON payload shape is
out of scope; only which node is resolved matters). -/
inductive InfoRes where
  | prov : Provinsi → InfoRes
  | kab : Provinsi → Kabupaten → InfoRes
  | kec : Provinsi → Kabupaten → Kecamatan → InfoRes
  | des : Provinsi → Kabupaten → Kecamatan → Desa → InfoRes
deriving DecidableEq

/-- `getWilayahInfo`: dispatch on the code length (2/4/7/10); composite codes
are split at positions 2, 4 and 7; every failed lookup is a 404, modelled as
`none`. An empty or otherwise-sized code falls to the default 400 branch. -/
def getWilayahInfo (data : WilayahData) (code : Str) : Option InfoRes :=
  match code.length with
  | 2 => (findProvinsi data code).map .prov
  | 4 =>
    match findProvinsi data (code.take 2) with
    | none => none
    | some p =>
      match findKabupaten p (code.drop 2) with
      | none => none
      | some k => some (.kab p k)
  | 7 =>
    match findProvinsi data (code.take 2) with
    | none => none
    | some p =>
      match findKabupaten p ((code.drop 2).take 2) with
      | none => none
      | some k =>
        match findKecamatan k (code.drop 4) with
        | none => none
        | some c => some (.kec p k c)
  | 10 =>
    match findProvinsi data (code.take 2) with
    | none => none
    | some p =>
      match findKabupaten p ((code.drop 2).take 2) with
      | none => none
      | some k =>
        match findKecamatan k ((code.drop 4).take 3) with
        | none => none
        | some c =>
          match findDesa c (code.drop 7) with
          | none => none
          | some d => some (.des p k c d)
  | _ => none

/-- The upstream API as an environment: each endpoint either returns the
decoded (and already normalized) `{code: name}` object, as a list of pairs in
arrival order, or fails (transport/decode error). -/
structure Env where
  provs : Except Unit (List (Str × Str))
  kabs : Str → Except Unit (List (Str × Str))
  kecs : Str → Str → Except Unit (List (Str × Str))
  desas : Str → Str → Str → Except Unit (List (Str × Str))

/-- Cooperative cancellation: `ctx.Done()` is observed from clock instant `cAt`
onwards; `none` means the context is never cancelled. -/
def cancelled (cAt : Option Nat) (t : Nat) : Bool :=
  match cAt with
  | none => false
  | some c => decide (c ≤ t)

/-- The village loop of `processKecamatan`: before each entry the worker checks
`ctx.Done()` and, if cancelled, keeps the villages collected so far. No fetch
happens inside this loop, so the clock does not advance. -/
def collectDesa (cAt : Option Nat) (t : Nat) : List (Str × Str) → List Desa
  | [] => []
  | d :: rest =>
    if cancelled cAt t then [] else ⟨d.1, d.2⟩ :: collectDesa cAt t rest

/-- `processKecamatan`: check `ctx.Done()`; fetch the village list (clock +1);
a fetch failure drops the whole district (`return nil`); otherwise collect the
villages (cancellation mid-loop keeps the partial list). -/
def processKecamatan (env : Env) (cAt : Option Nat)
    (kecID kecNama provID kabID : Str) (t : Nat) : Option Kecamatan × Nat :=
  if cancelled cAt t then (none, t)
  else
    match env.desas provID kabID kecID with
    | .error _ => (none, t + 1)
    | .ok desaData => (some ⟨kecID, kecNama, collectDesa cAt (t + 1) desaData⟩, t + 1)

/-- The district loop of `processKabupaten`: before each district the worker
checks `ctx.Done()` and, if cancelled, returns the regency with the districts
collected so far; a `nil` district (village-fetch failure) is skipped. -/
def kecLoop (env : Env) (cAt : Option Nat) (provID kabID : Str) :
    List (Str × Str) → List Kecamatan → Nat → List Kecamatan × Nat
  | [], acc, t => (acc, t)
  | ke :: rest, acc, t =>
    if cancelled cAt t then (acc, t)
    else
      match processKecamatan env cAt ke.1 ke.2 provID kabID t with
      | (some kec, t') => kecLoop env cAt provID kabID rest (acc ++ [kec]) t'
      | (none, t') => kecLoop env cAt provID kabID rest acc t'

/-- `processKabupaten`: check `ctx.Done()`; fetch the district list (clock +1);
a fetch failure drops the whole regency (`return nil`); otherwise run the
district loop. -/
def processKabupaten (env : Env) (cAt : Option Nat)
    (kabID kabNama provID : Str) (t : Nat) : Option Kabupaten × Nat :=
  if cancelled cAt t then (none, t)
  else
    match env.kecs provID kabID with
    | .error _ => (none, t + 1)
    | .ok kecData =>
      let r := kecLoop env cAt provID kabID kecData [] (t + 1)
      (some ⟨kabID, kabNama, r.1⟩, r.2)

/-- The regency worker pool, sequentialized: the job sender checks `ctx.Done()`
before sending each job and each worker checks it before processing a job, so
each job is gated by one check; `nil` results (regency aborted) are dropped.
The source collects results in completion order and guarantees no order; this
model fixes dispatch order. -/
def kabLoop (env : Env) (cAt : Option Nat) (provID : Str) :
    List (Str × Str) → List Kabupaten → Nat → List Kabupaten × Nat
  | [], acc, t => (acc, t)
  | ka :: rest, acc, t =>
    if cancelled cAt t then (acc, t)
    else
      match processKabupaten env cAt ka.1 ka.2 provID t with
      | (some kab, t') => kabLoop env cAt provID rest (acc ++ [kab]) t'
      | (none, t') => kabLoop env cAt provID rest acc t'

/-- `processKabupatenParallel`, as the sequentialized pool. -/
def processKabupatenParallel (env : Env) (cAt : Option Nat)
    (kabItems : List (Str × Str)) (provID : Str) (t : Nat) : List Kabupaten × Nat :=
  kabLoop env cAt provID kabItems [] t

/-- The two errors `scrapeAll` itself surfaces by returning early. -/
inductive CrawlErr where
  | loadFailed
  | provFetchFailed
deriving DecidableEq

/-- `loadCheckpoint`: a missing file yields the empty tree and no error; an
existing file yields its parse outcome (corrupt file = error surfaced). The
file is modelled by its parse outcome. -/
def loadCheckpoint (file : Option (Except Unit WilayahData)) : Except Unit WilayahData :=
  match file with
  | none => .ok ⟨[]⟩
  | some r => r

/-- The observable state of one `scrapeAll` invocation: logical clock, the
in-memory tree (`allData.Pro`), the checkpoint file content (`none` = absent),
whether `os.Remove` was called on the checkpoint, the temp and final artifact
files, the log of province IDs for which a regency-list fetch was issued, and
the surfaced error, if any. -/
structure RunSt where
  t : Nat
  pro : List Provinsi
  ckpt : Option (Except Unit WilayahData)
  ckptDeleted : Bool
  temp : Option WilayahData
  final : Option WilayahData
  log : List Str
  err : Option CrawlErr

/-- The province loop of `scrapeAll`: check `ctx.Done()` at the top of each
iteration; fetch the regency list (clock +1, logged); on failure `continue`;
otherwise run the pool, append the (possibly partial) province, and persist
checkpoint and temp snapshot. -/
def provLoop (env : Env) (cAt : Option Nat) : List (Str × Str) → RunSt → RunSt
  | [], st => st
  | p :: rest, st =>
    if cancelled cAt st.t then st
    else
      match env.kabs p.1 with
      | .error _ => provLoop env cAt rest { st with t := st.t + 1, log := st.log ++ [p.1] }
      | .ok kabItems =>
        let r := processKabupatenParallel env cAt kabItems p.1 (st.t + 1)
        let pro' := st.pro ++ [⟨p.1, p.2, r.1⟩]
        provLoop env cAt rest
          { st with t := r.2, pro := pro', log := st.log ++ [p.1],
                    ckpt := some (.ok ⟨pro'⟩), temp := some ⟨pro'⟩ }

/-- `scrapeAll`: load the checkpoint (corrupt = abort), fetch the province list
(failure = abort), filter out already-completed provinces, run the province
loop, and finally — only if cancellation was not signaled — write the final
artifact and delete the checkpoint. -/
def scrapeAll (env : Env) (cAt : Option Nat)
    (ckptFile : Option (Except Unit WilayahData)) : RunSt :=
  let st0 : RunSt := ⟨0, [], ckptFile, false, none, none, [], none⟩
  match loadCheckpoint ckptFile with
  | .error _ => { st0 with err := some .loadFailed }
  | .ok data0 =>
    match env.provs with
    | .error _ => { st0 with t := 1, pro := data0.Pro, err := some .provFetchFailed }
    | .ok provItems =>
      let completed := data0.Pro.map (·.ID)
      let filtered := provItems.filter (fun p => !(completed.contains p.1))
      let st2 := provLoop env cAt filtered { st0 with t := 1, pro := data0.Pro }
      if cancelled cAt st2.t then st2
      else { st2 with final := some ⟨st2.pro⟩, ckpt := none, ckptDeleted := true }

/-- The district subtree the environment defines for one district: `none` if
its village fetch fails (the source drops such a district). -/
def expectedKec (env : Env) (provID kabID kecID kecNama : Str) : Option Kecamatan :=
  match env.desas provID kabID kecID with
  | .error _ => none
  | .ok ds => some ⟨kecID, kecNama, ds.map (fun d => ⟨d.1, d.2⟩)⟩

/-- The regency subtree the environment defines for one regency: `none` if its
district fetch fails (the source drops such a regency). -/
def expectedKab (env : Env) (provID kabID kabNama : Str) : Option Kabupaten :=
  match env.kecs provID kabID with
  | .error _ => none
  | .ok ks =>
    some ⟨kabID, kabNama, ks.filterMap (fun ke => expectedKec env provID kabID ke.1 ke.2)⟩

/-- The full province subtree the environment defines for one province: `none`
if its regency fetch fails (the source skips such a province for this pass). -/
def expectedProv (env : Env) (p : Str × Str) : Option Provinsi :=
  match env.kabs p.1 with
  | .error _ => none
  | .ok kas =>
    some ⟨p.1, p.2, kas.filterMap (fun ka => expectedKab env p.1 ka.1 ka.2)⟩

/-- State of the regency worker pool (`processKabupatenParallel`): the jobs not
yet sent, one slot per worker goroutine (`some job` = that worker is running a
regency-fetch chain), and the finished jobs. -/
structure PoolSt (α : Type) where
  pending : List α
  slots : List (Option α)
  done : List α

/-- A pool transition: a free worker takes the next job, or a busy worker
finishes its job. A worker goroutine iterates `for kab := range jobs`
sequentially, so it holds at most one job at a time — a slot must be freed
before it is reused. -/
inductive PoolStep {α : Type} : PoolSt α → PoolSt α → Prop where
  | start (s : PoolSt α) (j : α) (rest : List α) (i : Nat) (hi : i < s.slots.length)
      (hp : s.pending = j :: rest) (hfree : s.slots.get ⟨i, hi⟩ = none) :
      PoolStep s ⟨rest, s.slots.set i (some j), s.done⟩
  | finish (s : PoolSt α) (j : α) (i : Nat) (hi : i < s.slots.length)
      (hbusy : s.slots.get ⟨i, hi⟩ = some j) :
      PoolStep s ⟨s.pending, s.slots.set i none, s.done ++ [j]⟩

/-- Initial pool state: all jobs pending, `n` idle workers (the source starts
exactly `maxWorkers` goroutines). -/
def initPool {α : Type} (jobs : List α) (n : Nat) : PoolSt α :=
  ⟨jobs, List.replicate n none, []⟩

/-- Reachability along pool transitions. -/
inductive PoolReach {α : Type} : PoolSt α → PoolSt α → Prop where
  | refl (s : PoolSt α) : PoolReach s s
  | step {s s' s'' : PoolSt α} : PoolReach s s' → PoolStep s' s'' → PoolReach s s''

/-- Number of regency-fetch chains active simultaneously = busy workers. -/
def activeFetches {α : Type} (s : PoolSt α) : Nat :=
  s.slots.countP (·.isSome)

instance : DecidableEq (Except Unit WilayahData)
  | .ok a, .ok b =>
    if h : a = b then .isTrue (by rw [h]) else .isFalse (by simp [h])
  | .ok _, .error _ => .isFalse (by simp)
  | .error _, .ok _ => .isFalse (by simp)
  | .error a, .error b => .isTrue (by cases a; cases b; rfl)

/-- Concrete upstream with two provinces `11` and `12`; province `12` has two
regencies. Used to exercise cancellation mid-province. -/
def envC1 : Env where
  provs := .ok [(['1', '1'], ['A']), (['1', '2'], ['B'])]
  kabs := fun pid =>
    if pid = ['1', '1'] then .ok [(['0', '1'], ['K'])]
    else if pid = ['1', '2'] then .ok [(['0', '1'], ['L']), (['0', '2'], ['M'])]
    else .error ()
  kecs := fun _ _ => .ok [(['0', '0', '1'], ['X'])]
  desas := fun _ _ _ => .ok [(['0', '0', '0', '1'], ['D'])]

/-- Concrete upstream where the village fetch fails for district `001` and
succeeds for district `002`. -/
def envC5 : Env where
  provs := .ok [(['1', '1'], ['A'])]
  kabs := fun _ => .ok [(['0', '1'], ['K'])]
  kecs := fun _ _ => .ok [(['0', '0', '1'], ['A']), (['0', '0', '2'], ['B'])]
  desas := fun _ _ keid =>
    if keid = ['0', '0', '1'] then .error () else .ok [(['0', '0', '0', '1'], ['D'])]

/-- Concrete upstream where the regency fetch fails for province `12` only. -/
def envC6 : Env where
  provs := .ok [(['1', '1'], ['A']), (['1', '2'], ['B']), (['1', '3'], ['C'])]
  kabs := fun pid =>
    if pid = ['1', '2'] then .error () else .ok [(['0', '1'], ['K'])]
  kecs := fun _ _ => .ok [(['0', '0', '1'], ['X'])]
  desas := fun _ _ _ => .ok [(['0', '0', '0', '1'], ['D'])]

/-- A one-path concrete tree for the lookup round-trip. -/
def dataC8 : WilayahData :=
  ⟨[⟨['7', '3'], ['S'],
     [⟨['0', '2'], ['G'],
       [⟨['0', '1', '0'], ['B'],
         [⟨['0', '0', '1'], ['V']⟩]⟩]⟩]⟩]⟩

/-- The upstream province list of `envC1`. -/
def itemsC1 : List (Str × Str) := [(['1', '1'], ['A']), (['1', '2'], ['B'])]

/-- The upstream province list of `envC6`. -/
def itemsC6 : List (Str × Str) :=
  [(['1', '1'], ['A']), (['1', '2'], ['B']), (['1', '3'], ['C'])]

/-- Province `11` with its full subtree under `envC1`. -/
def prov11 : Provinsi :=
  ⟨['1', '1'], ['A'],
    [⟨['0', '1'], ['K'], [⟨['0', '0', '1'], ['X'], [⟨['0', '0', '0', '1'], ['D']⟩]⟩]⟩]⟩

/-- A checkpoint file already holding province `11`. -/
def ckptC2 : Option (Except Unit WilayahData) := some (.ok ⟨[prov11]⟩)

/-! ## Theorems -/

/-- C10: the response normalizer recurses only into nested JSON objects;
string values nested inside JSON arrays, and all non-string non-object values,
hit the `default` branch of `normalizeData`'s switch and pass through with no
escape replacement applied — even an array whose elements are strings. -/
theorem c10_arrays_pass_through :
    (∀ elems, normalizeValue (.arr elems) = .arr elems)
    ∧ (∀ s elems, normalizeValue (.arr (.str s :: elems)) = .arr (.str s :: elems))
    ∧ (∀ n, normalizeValue (.num n) = .num n)
    ∧ (∀ b, normalizeValue (.bool b) = .bool b)
    ∧ normalizeValue .null = .null
    ∧ (∀ k elems rest, normalizeData ((k, .arr elems) :: rest)
        = (k, .arr elems) :: normalizeData rest) :=
  ⟨fun _ => rfl, fun _ _ => rfl, fun _ => rfl, fun _ => rfl, rfl, fun _ _ _ => rfl⟩

/-- C4: loading a checkpoint for a key with no existing file yields the empty
tree and is not an error, while an existing but unparseable checkpoint file
makes `scrapeAll` surface the load error and abort before fetching anything:
no province fetch is issued, nothing is crawled, no artifact is written, and
the (corrupt) checkpoint file is left as it was. -/
theorem c4_checkpoint_load :
    loadCheckpoint none = .ok ⟨[]⟩
    ∧ (∀ env cAt e,
        (scrapeAll env cAt (some (.error e))).err = some .loadFailed
        ∧ (scrapeAll env cAt (some (.error e))).log = []
        ∧ (scrapeAll env cAt (some (.error e))).pro = []
        ∧ (scrapeAll env cAt (some (.error e))).final = none
        ∧ (scrapeAll env cAt (some (.error e))).ckpt = some (.error e)) :=
  ⟨rfl, fun _ _ _ => ⟨rfl, rfl, rfl, rfl, rfl⟩⟩

/-- Every pool transition preserves the number of worker slots. -/
theorem poolStep_slots_length {α : Type} {s s' : PoolSt α} (h : PoolStep s s') :
    s'.slots.length = s.slots.length := by
  cases h <;> simp

/-- C9: within a single province's processing, the number of simultaneously
active regency-fetch chains never exceeds the pool size `n` (= `maxWorkers`):
the source starts exactly `n` worker goroutines and each processes at most one
regency at a time, so along every schedule of the pool the count of busy
workers is bounded by `n`. -/
theorem c9_concurrency_bound {α : Type} (jobs : List α) (n : Nat) (s : PoolSt α)
    (h : PoolReach (initPool jobs n) s) : activeFetches s ≤ n := by
  have hlen : s.slots.length = n := by
    induction h with
    | refl => simp [initPool]
    | step _ hstep ih => rw [poolStep_slots_length hstep]; exact ih
  calc activeFetches s ≤ s.slots.length := List.countP_le_length _
    _ = n := hlen

/-- Witness for C9: a reachable schedule of a two-worker pool over three jobs
in which both workers are busy; the bound evaluates to `2 ≤ 2`. -/
theorem c9_witness :
    activeFetches (⟨[2], [some 0, some 1], []⟩ : PoolSt Nat) ≤ 2 := by
  have h1 : PoolStep (initPool [0, 1, 2] 2) ⟨[1, 2], [some 0, none], []⟩ :=
    PoolStep.start _ 0 [1, 2] 0 (by decide) rfl rfl
  have h2 : PoolStep (⟨[1, 2], [some 0, none], []⟩ : PoolSt Nat)
      ⟨[2], [some 0, some 1], []⟩ :=
    PoolStep.start _ 1 [2] 1 (by decide) rfl rfl
  exact c9_concurrency_bound [0, 1, 2] 2 _
    (PoolReach.step (PoolReach.step (PoolReach.refl _) h1) h2)

/-- `find?` with an ID test returns the element itself when its projection is
unique in the list. -/
theorem find_by_id {α : Type} (f : α → Str) (l : List α) (a : α)
    (ha : a ∈ l) (hnd : (l.map f).Nodup) :
    l.find? (fun x => f x == f a) = some a := by
  induction l with
  | nil => cases ha
  | cons b rest ih =>
    rw [List.map_cons, List.nodup_cons] at hnd
    rcases List.mem_cons.mp ha with rfl | hmem
    · exact List.find?_cons_of_pos _ (by simp)
    · have hne : f b ≠ f a := by
        intro he
        exact hnd.1 (he ▸ List.mem_map_of_mem f hmem)
      rw [List.find?_cons_of_neg _ (by simp [hne])]
      exact ih hmem hnd.2

/-- C8: for every village leaf of a tree, concatenating the province, regency
and district local codes with the village's own code yields a 10-character key
that `getWilayahInfo`'s code-based resolution (splitting at positions 2, 4, 7)
resolves back to exactly that village (and its ancestor chain). The hypotheses
are the code widths of the four levels (2/2/3/3) and uniqueness of child codes
within each parent on the access path — both invariants of the upstream data
model. -/
theorem c8_code_composition (data : WilayahData) (p : Provinsi) (k : Kabupaten)
    (c : Kecamatan) (d : Desa)
    (hp : p ∈ data.Pro) (hk : k ∈ p.Kab) (hc : c ∈ k.Kec) (hd : d ∈ c.Des)
    (hlp : p.ID.length = 2) (hlk : k.ID.length = 2) (hlc : c.ID.length = 3)
    (hld : d.ID.length = 3)
    (hnp : (data.Pro.map Provinsi.ID).Nodup) (hnk : (p.Kab.map Kabupaten.ID).Nodup)
    (hnc : (k.Kec.map Kecamatan.ID).Nodup) (hnd : (c.Des.map Desa.ID).Nodup) :
    (p.ID ++ k.ID ++ c.ID ++ d.ID).length = 10
    ∧ getWilayahInfo data (p.ID ++ k.ID ++ c.ID ++ d.ID) = some (.des p k c d) := by
  set code := p.ID ++ k.ID ++ c.ID ++ d.ID with hcode
  have hlen : code.length = 10 := by
    simp [hcode, hlp, hlk, hlc, hld]
  refine ⟨hlen, ?_⟩
  have htake2 : code.take 2 = p.ID := by
    rw [hcode, List.append_assoc, List.append_assoc, List.take_left' hlp]
  have hdrop2 : code.drop 2 = k.ID ++ (c.ID ++ d.ID) := by
    rw [hcode, List.append_assoc, List.append_assoc, List.drop_left' hlp]
  have htake4 : (code.drop 2).take 2 = k.ID := by
    rw [hdrop2, List.take_left' hlk]
  have hdrop4 : code.drop 4 = c.ID ++ d.ID := by
    rw [hcode, List.append_assoc,
      @List.drop_left' Char (p.ID ++ k.ID) (c.ID ++ d.ID) 4 (by simp [hlp, hlk])]
  have htake7 : (code.drop 4).take 3 = c.ID := by
    rw [hdrop4, List.take_left' hlc]
  have hdrop7 : code.drop 7 = d.ID := by
    rw [hcode,
      @List.drop_left' Char (p.ID ++ k.ID ++ c.ID) d.ID 7 (by simp [hlp, hlk, hlc])]
  have hfp : findProvinsi data (code.take 2) = some p := by
    rw [htake2]; exact find_by_id Provinsi.ID data.Pro p hp hnp
  have hfk : findKabupaten p ((code.drop 2).take 2) = some k := by
    rw [htake4]; exact find_by_id Kabupaten.ID p.Kab k hk hnk
  have hfc : findKecamatan k ((code.drop 4).take 3) = some c := by
    rw [htake7]; exact find_by_id Kecamatan.ID k.Kec c hc hnc
  have hfd : findDesa c (code.drop 7) = some d := by
    rw [hdrop7]; exact find_by_id Desa.ID c.Des d hd hnd
  unfold getWilayahInfo
  rw [hlen]
  simp [hfp, hfk, hfc, hfd]

/-- Witness for C8 on the concrete one-path tree `dataC8`. -/
theorem c8_witness :
    ((['7', '3'] : Str) ++ ['0', '2'] ++ ['0', '1', '0'] ++ ['0', '0', '1']).length = 10
    ∧ getWilayahInfo dataC8 ((['7', '3'] : Str) ++ ['0', '2'] ++ ['0', '1', '0'] ++ ['0', '0', '1'])
        = some (.des
            ⟨['7', '3'], ['S'],
              [⟨['0', '2'], ['G'], [⟨['0', '1', '0'], ['B'], [⟨['0', '0', '1'], ['V']⟩]⟩]⟩]⟩
            ⟨['0', '2'], ['G'], [⟨['0', '1', '0'], ['B'], [⟨['0', '0', '1'], ['V']⟩]⟩]⟩
            ⟨['0', '1', '0'], ['B'], [⟨['0', '0', '1'], ['V']⟩]⟩
            ⟨['0', '0', '1'], ['V']⟩) :=
  c8_code_composition dataC8
    ⟨['7', '3'], ['S'],
      [⟨['0', '2'], ['G'], [⟨['0', '1', '0'], ['B'], [⟨['0', '0', '1'], ['V']⟩]⟩]⟩]⟩
    ⟨['0', '2'], ['G'], [⟨['0', '1', '0'], ['B'], [⟨['0', '0', '1'], ['V']⟩]⟩]⟩
    ⟨['0', '1', '0'], ['B'], [⟨['0', '0', '1'], ['V']⟩]⟩
    ⟨['0', '0', '1'], ['V']⟩
    (by decide) (by decide) (by decide) (by decide)
    (by decide) (by decide) (by decide) (by decide)
    (by decide) (by decide) (by decide) (by decide)

/-- Never-cancelled contexts observe no cancellation. -/
theorem cancelled_none (t : Nat) : cancelled none t = false := rfl

/-- Cancellation is monotone in the clock: if it is not observed at a later
instant, it was not observed earlier. -/
theorem cancelled_mono_false {cAt : Option Nat} {t t' : Nat} (h : t ≤ t')
    (hc : cancelled cAt t' = false) : cancelled cAt t = false := by
  cases cAt with
  | none => rfl
  | some c =>
    simp only [cancelled, decide_eq_false_iff_not, Nat.not_le] at hc ⊢
    omega

/-- With no cancellation observed, the village loop collects every village. -/
theorem collectDesa_not {cAt : Option Nat} {t : Nat} {l : List (Str × Str)}
    (h : cancelled cAt t = false) :
    collectDesa cAt t l = l.map (fun d => (⟨d.1, d.2⟩ : Desa)) := by
  induction l with
  | nil => rfl
  | cons d rest ih => simp [collectDesa, h, ih]

/-- A district worker that starts uncancelled always spends exactly one fetch. -/
theorem processKecamatan_snd (env : Env) (cAt : Option Nat) (a b pid kid : Str)
    (t : Nat) (h0 : cancelled cAt t = false) :
    (processKecamatan env cAt a b pid kid t).2 = t + 1 := by
  cases hds : env.desas pid kid a <;> simp [processKecamatan, h0, hds]

/-- The clock never decreases across `processKecamatan`. -/
theorem processKecamatan_t_le (env : Env) (cAt : Option Nat) (a b pid kid : Str)
    (t : Nat) : t ≤ (processKecamatan env cAt a b pid kid t).2 := by
  by_cases h0 : cancelled cAt t = true
  · simp [processKecamatan, h0]
  · rw [processKecamatan_snd env cAt a b pid kid t (by simpa using h0)]
    omega

/-- If no cancellation is observed through a district's processing, the result
is exactly the district subtree the environment defines. -/
theorem processKecamatan_fst (env : Env) (cAt : Option Nat) (a b pid kid : Str)
    (t : Nat) (h0 : cancelled cAt t = false) (h1 : cancelled cAt (t + 1) = false) :
    (processKecamatan env cAt a b pid kid t).1 = expectedKec env pid kid a b := by
  cases hds : env.desas pid kid a <;>
    simp [processKecamatan, expectedKec, h0, hds, collectDesa_not h1]

/-- The clock never decreases across the district loop. -/
theorem kecLoop_t_le (env : Env) (cAt : Option Nat) (pid kid : Str)
    (l : List (Str × Str)) : ∀ (acc : List Kecamatan) (t : Nat),
    t ≤ (kecLoop env cAt pid kid l acc t).2 := by
  induction l with
  | nil => intro acc t; simp [kecLoop]
  | cons ke rest ih =>
    intro acc t
    by_cases h0 : cancelled cAt t = true
    · simp [kecLoop, h0]
    · have h0' : cancelled cAt t = false := by simpa using h0
      have hle := processKecamatan_t_le env cAt ke.1 ke.2 pid kid t
      rcases hpk : processKecamatan env cAt ke.1 ke.2 pid kid t with ⟨opt, t2⟩
      rw [hpk] at hle
      cases opt <;>
        · simp only [kecLoop, h0', Bool.false_eq_true, if_false, hpk]
          exact le_trans hle (ih _ _)

/-- If no cancellation is observed through the district loop, it returns every
district subtree the environment defines, in order. -/
theorem kecLoop_fst (env : Env) (cAt : Option Nat) (pid kid : Str)
    (l : List (Str × Str)) : ∀ (acc : List Kecamatan) (t : Nat),
    cancelled cAt (kecLoop env cAt pid kid l acc t).2 = false →
    (kecLoop env cAt pid kid l acc t).1
      = acc ++ l.filterMap (fun ke => expectedKec env pid kid ke.1 ke.2) := by
  induction l with
  | nil => intro acc t _; simp [kecLoop]
  | cons ke rest ih =>
    intro acc t hend
    have htot := kecLoop_t_le env cAt pid kid (ke :: rest) acc t
    have h0 : cancelled cAt t = false := cancelled_mono_false htot hend
    rcases hpk : processKecamatan env cAt ke.1 ke.2 pid kid t with ⟨opt, t2⟩
    have ht2 : t2 = t + 1 := by
      rw [← processKecamatan_snd env cAt ke.1 ke.2 pid kid t h0, hpk]
    subst ht2
    simp only [kecLoop, h0, Bool.false_eq_true, if_false, hpk] at hend ⊢
    have h1 : cancelled cAt (t + 1) = false := by
      cases opt <;>
        exact cancelled_mono_false (kecLoop_t_le env cAt pid kid rest _ _) hend
    have hopt : opt = expectedKec env pid kid ke.1 ke.2 := by
      rw [← processKecamatan_fst env cAt ke.1 ke.2 pid kid t h0 h1, hpk]
    cases opt with
    | some kec =>
      rw [List.filterMap_cons, ← hopt]
      rw [ih (acc ++ [kec]) (t + 1) hend]
      simp
    | none =>
      rw [List.filterMap_cons, ← hopt]
      exact ih acc (t + 1) hend

/-- The clock never decreases across `processKabupaten`. -/
theorem processKabupaten_t_le (env : Env) (cAt : Option Nat) (ka kb pid : Str)
    (t : Nat) : t ≤ (processKabupaten env cAt ka kb pid t).2 := by
  by_cases h0 : cancelled cAt t = true
  · simp [processKabupaten, h0]
  · have h0' : cancelled cAt t = false := by simpa using h0
    cases hks : env.kecs pid ka with
    | error e => simp [processKabupaten, h0', hks]
    | ok ks =>
      simp only [processKabupaten, h0', Bool.false_eq_true, if_false, hks]
      exact le_trans (Nat.le_succ t) (kecLoop_t_le env cAt pid ka ks [] (t + 1))

/-- If no cancellation is observed through a regency's processing, the result
is exactly the regency subtree the environment defines (`none` on a district
fetch failure). -/
theorem processKabupaten_fst (env : Env) (cAt : Option Nat) (ka kb pid : Str)
    (t : Nat) (h0 : cancelled cAt t = false)
    (hend : cancelled cAt (processKabupaten env cAt ka kb pid t).2 = false) :
    (processKabupaten env cAt ka kb pid t).1 = expectedKab env pid ka kb := by
  cases hks : env.kecs pid ka with
  | error e => simp [processKabupaten, expectedKab, h0, hks]
  | ok ks =>
    simp only [processKabupaten, h0, Bool.false_eq_true, if_false, hks] at hend ⊢
    rw [expectedKab, hks]
    simp only [Option.some.injEq, Kabupaten.mk.injEq, true_and]
    exact kecLoop_fst env cAt pid ka ks [] (t + 1) hend

/-- The clock never decreases across the regency loop. -/
theorem kabLoop_t_le (env : Env) (cAt : Option Nat) (pid : Str)
    (l : List (Str × Str)) : ∀ (acc : List Kabupaten) (t : Nat),
    t ≤ (kabLoop env cAt pid l acc t).2 := by
  induction l with
  | nil => intro acc t; simp [kabLoop]
  | cons ka rest ih =>
    intro acc t
    by_cases h0 : cancelled cAt t = true
    · simp [kabLoop, h0]
    · have h0' : cancelled cAt t = false := by simpa using h0
      have hle := processKabupaten_t_le env cAt ka.1 ka.2 pid t
      rcases hpk : processKabupaten env cAt ka.1 ka.2 pid t with ⟨opt, t2⟩
      rw [hpk] at hle
      cases opt <;>
        · simp only [kabLoop, h0', Bool.false_eq_true, if_false, hpk]
          exact le_trans hle (ih _ _)

/-- If no cancellation is observed through the regency loop, it returns every
regency subtree the environment defines, in order (fetch-failed regencies
dropped). -/
theorem kabLoop_fst (env : Env) (cAt : Option Nat) (pid : Str)
    (l : List (Str × Str)) : ∀ (acc : List Kabupaten) (t : Nat),
    cancelled cAt (kabLoop env cAt pid l acc t).2 = false →
    (kabLoop env cAt pid l acc t).1
      = acc ++ l.filterMap (fun ka => expectedKab env pid ka.1 ka.2) := by
  induction l with
  | nil => intro acc t _; simp [kabLoop]
  | cons ka rest ih =>
    intro acc t hend
    have htot := kabLoop_t_le env cAt pid (ka :: rest) acc t
    have h0 : cancelled cAt t = false := cancelled_mono_false htot hend
    rcases hpk : processKabupaten env cAt ka.1 ka.2 pid t with ⟨opt, t2⟩
    simp only [kabLoop, h0, Bool.false_eq_true, if_false, hpk] at hend ⊢
    have ht2 : cancelled cAt t2 = false := by
      cases opt <;>
        exact cancelled_mono_false (kabLoop_t_le env cAt pid rest _ _) hend
    have hopt : opt = expectedKab env pid ka.1 ka.2 := by
      rw [← processKabupaten_fst env cAt ka.1 ka.2 pid t h0 (by rw [hpk]; exact ht2), hpk]
    cases opt with
    | some kab =>
      rw [List.filterMap_cons, ← hopt]
      rw [ih (acc ++ [kab]) t2 hend]
      simp
    | none =>
      rw [List.filterMap_cons, ← hopt]
      exact ih acc t2 hend

/-- Once cancellation is observed at the top of the province loop, the loop
stops: no further province is processed or appended. -/
theorem provLoop_stop (env : Env) (cAt : Option Nat) (l : List (Str × Str))
    (st : RunSt) (hc : cancelled cAt st.t = true) : provLoop env cAt l st = st := by
  cases l <;> simp [provLoop, hc]

/-- Unfolding the province loop on a regency-fetch failure (`continue`). -/
theorem provLoop_cons_err (env : Env) (cAt : Option Nat) (p : Str × Str)
    (rest : List (Str × Str)) (st : RunSt) (e : Unit)
    (h0 : cancelled cAt st.t = false) (hkab : env.kabs p.1 = .error e) :
    provLoop env cAt (p :: rest) st
      = provLoop env cAt rest { st with t := st.t + 1, log := st.log ++ [p.1] } := by
  simp [provLoop, h0, hkab]

/-- Unfolding the province loop on a successful regency fetch: run the pool,
append the province, persist checkpoint and temp snapshot. -/
theorem provLoop_cons_ok (env : Env) (cAt : Option Nat) (p : Str × Str)
    (rest : List (Str × Str)) (st : RunSt) (kabItems : List (Str × Str))
    (h0 : cancelled cAt st.t = false) (hkab : env.kabs p.1 = .ok kabItems) :
    provLoop env cAt (p :: rest) st
      = provLoop env cAt rest
          { st with
            t := (processKabupatenParallel env cAt kabItems p.1 (st.t + 1)).2,
            pro := st.pro
              ++ [⟨p.1, p.2, (processKabupatenParallel env cAt kabItems p.1 (st.t + 1)).1⟩],
            log := st.log ++ [p.1],
            ckpt := some (.ok ⟨st.pro
              ++ [⟨p.1, p.2, (processKabupatenParallel env cAt kabItems p.1 (st.t + 1)).1⟩]⟩),
            temp := some ⟨st.pro
              ++ [⟨p.1, p.2, (processKabupatenParallel env cAt kabItems p.1 (st.t + 1)).1⟩]⟩ } := by
  simp [provLoop, h0, hkab]

/-- The clock never decreases across the province loop. -/
theorem provLoop_t_le (env : Env) (cAt : Option Nat) (l : List (Str × Str)) :
    ∀ st : RunSt, st.t ≤ (provLoop env cAt l st).t := by
  induction l with
  | nil => intro st; simp [provLoop]
  | cons p rest ih =>
    intro st
    by_cases hc : cancelled cAt st.t = true
    · rw [provLoop_stop env cAt _ st hc]
    · have hc' : cancelled cAt st.t = false := by simpa using hc
      cases hkab : env.kabs p.1 with
      | error e =>
        rw [provLoop_cons_err env cAt p rest st e hc' hkab]
        exact le_trans (Nat.le_succ _)
          (ih { st with t := st.t + 1, log := st.log ++ [p.1] })
      | ok kabItems =>
        rw [provLoop_cons_ok env cAt p rest st kabItems hc' hkab]
        refine le_trans ?_ (ih _)
        exact le_trans (Nat.le_succ _)
          (kabLoop_t_le env cAt p.1 kabItems [] (st.t + 1))

/-- The province loop never touches the final artifact, the error field, or
the checkpoint-deletion flag. -/
theorem provLoop_frame (env : Env) (cAt : Option Nat) (l : List (Str × Str)) :
    ∀ st : RunSt, (provLoop env cAt l st).final = st.final
      ∧ (provLoop env cAt l st).err = st.err
      ∧ (provLoop env cAt l st).ckptDeleted = st.ckptDeleted := by
  induction l with
  | nil => intro st; simp [provLoop]
  | cons p rest ih =>
    intro st
    by_cases hc : cancelled cAt st.t = true
    · rw [provLoop_stop env cAt _ st hc]
      exact ⟨rfl, rfl, rfl⟩
    · have hc' : cancelled cAt st.t = false := by simpa using hc
      cases hkab : env.kabs p.1 with
      | error e => rw [provLoop_cons_err env cAt p rest st e hc' hkab]; exact ih _
      | ok kabItems => rw [provLoop_cons_ok env cAt p rest st kabItems hc' hkab]; exact ih _

/-- Every province ID ever logged for a regency-list fetch by the loop comes
from its pending list (or was logged before the loop started). -/
theorem provLoop_log (env : Env) (cAt : Option Nat) (l : List (Str × Str)) :
    ∀ (st : RunSt) (id : Str), id ∈ (provLoop env cAt l st).log →
      id ∈ st.log ∨ id ∈ l.map Prod.fst := by
  induction l with
  | nil => intro st id h; exact .inl (by simpa [provLoop] using h)
  | cons p rest ih =>
    intro st id h
    by_cases hc : cancelled cAt st.t = true
    · rw [provLoop_stop env cAt _ st hc] at h
      exact .inl h
    · have hc' : cancelled cAt st.t = false := by simpa using hc
      have step : ∀ st' : RunSt, st'.log = st.log ++ [p.1] →
          id ∈ (provLoop env cAt rest st').log → id ∈ st.log ∨ id ∈ (p :: rest).map Prod.fst := by
        intro st' hlog h'
        rcases ih st' id h' with hin | hin
        · rw [hlog] at hin
          rcases List.mem_append.mp hin with h2 | h2
          · exact .inl h2
          · exact .inr (by simpa using .inl (List.mem_singleton.mp h2))
        · exact .inr (List.mem_cons_of_mem _ hin)
      cases hkab : env.kabs p.1 with
      | error e =>
        rw [provLoop_cons_err env cAt p rest st e hc' hkab] at h
        exact step _ rfl h
      | ok kabItems =>
        rw [provLoop_cons_ok env cAt p rest st kabItems hc' hkab] at h
        exact step _ rfl h

/-- With no cancellation, the province loop processes all pending provinces in
order: the tree grows by exactly the environment-defined subtree of every
pending province whose regency fetch succeeds, and a regency-list fetch is
issued (logged) for every pending province. -/
theorem provLoop_none (env : Env) (l : List (Str × Str)) :
    ∀ st : RunSt,
      (provLoop env none l st).pro = st.pro ++ l.filterMap (expectedProv env)
      ∧ (provLoop env none l st).log = st.log ++ l.map Prod.fst := by
  induction l with
  | nil => intro st; simp [provLoop]
  | cons p rest ih =>
    intro st
    cases hkab : env.kabs p.1 with
    | error e =>
      have hexp : expectedProv env p = none := by simp [expectedProv, hkab]
      rw [provLoop_cons_err env none p rest st e rfl hkab]
      obtain ⟨h1, h2⟩ := ih _
      constructor
      · rw [h1]; simp [hexp]
      · rw [h2]; simp
    | ok kabItems =>
      have hfull : (processKabupatenParallel env none kabItems p.1 (st.t + 1)).1
          = kabItems.filterMap (fun ka => expectedKab env p.1 ka.1 ka.2) := by
        simpa [processKabupatenParallel] using
          kabLoop_fst env none p.1 kabItems [] (st.t + 1) rfl
      have hexp : expectedProv env p
          = some ⟨p.1, p.2, (processKabupatenParallel env none kabItems p.1 (st.t + 1)).1⟩ := by
        simp [expectedProv, hkab, hfull]
      rw [provLoop_cons_ok env none p rest st kabItems rfl hkab]
      obtain ⟨h1, h2⟩ := ih _
      constructor
      · rw [h1]; simp [hexp]
      · rw [h2]; simp

/-- Characterization of one province-loop run under an arbitrary cancellation
schedule: the tree grows by the environment-defined subtrees of a prefix of
the pending list (`j` provinces, fetch-failed ones skipped), followed by at
most one extra province — the one being processed when cancellation was
observed, carrying whatever regency subtrees its workers had handed back. If
no cancellation is observed by the end, the whole pending list was processed
and there is no partial province. The checkpoint/temp files either were never
written to (nothing was appended) or hold exactly the final tree. -/
theorem provLoop_char (env : Env) (cAt : Option Nat) (l : List (Str × Str)) :
    ∀ st : RunSt,
    ∃ j, ∃ _ : j ≤ l.length, ∃ tail : List Provinsi,
      (provLoop env cAt l st).pro
        = st.pro ++ (l.take j).filterMap (expectedProv env) ++ tail
      ∧ (tail = [] ∨ ∃ kabs, ∃ hlt : j < l.length, tail = [⟨l[j].1, l[j].2, kabs⟩])
      ∧ (cancelled cAt (provLoop env cAt l st).t = false → j = l.length ∧ tail = [])
      ∧ ((provLoop env cAt l st).ckpt = st.ckpt ∧ (provLoop env cAt l st).temp = st.temp
           ∧ (provLoop env cAt l st).pro = st.pro
         ∨ (provLoop env cAt l st).ckpt = some (.ok ⟨(provLoop env cAt l st).pro⟩)
           ∧ (provLoop env cAt l st).temp = some ⟨(provLoop env cAt l st).pro⟩) := by
  induction l with
  | nil =>
    intro st
    refine ⟨0, Nat.le_refl 0, [], by simp [provLoop], .inl rfl,
      fun _ => ⟨rfl, rfl⟩, .inl ⟨by simp [provLoop], by simp [provLoop], by simp [provLoop]⟩⟩
  | cons p rest ih =>
    intro st
    by_cases hc : cancelled cAt st.t = true
    · rw [provLoop_stop env cAt _ st hc]
      exact ⟨0, Nat.zero_le _, [], by simp, .inl rfl,
        fun h => absurd h (by simp [hc]), .inl ⟨rfl, rfl, rfl⟩⟩
    · have hc' : cancelled cAt st.t = false := by simpa using hc
      cases hkab : env.kabs p.1 with
      | error e =>
        have hexp : expectedProv env p = none := by simp [expectedProv, hkab]
        rw [provLoop_cons_err env cAt p rest st e hc' hkab]
        obtain ⟨j, hj, tail, hpro, htail, hclean, hck⟩ :=
          ih { st with t := st.t + 1, log := st.log ++ [p.1] }
        refine ⟨j + 1, Nat.succ_le_succ hj, tail, ?_, ?_, ?_, ?_⟩
        · rw [hpro]; simp [hexp, List.take_succ_cons, List.filterMap_cons]
        · rcases htail with h | ⟨kabs, hlt, ht⟩
          · exact .inl h
          · exact .inr ⟨kabs, Nat.succ_lt_succ hlt, by simpa using ht⟩
        · intro hdone
          obtain ⟨hj', ht'⟩ := hclean hdone
          exact ⟨by simp [hj'], ht'⟩
        · exact hck
      | ok kabItems =>
        rw [provLoop_cons_ok env cAt p rest st kabItems hc' hkab]
        by_cases hc2 : cancelled cAt (processKabupatenParallel env cAt kabItems p.1 (st.t + 1)).2 = true
        · rw [provLoop_stop env cAt rest _ hc2]
          refine ⟨0, Nat.zero_le _, [⟨p.1, p.2,
              (processKabupatenParallel env cAt kabItems p.1 (st.t + 1)).1⟩], by simp, ?_, ?_, ?_⟩
          · exact .inr ⟨(processKabupatenParallel env cAt kabItems p.1 (st.t + 1)).1,
              Nat.succ_pos _, by simp⟩
          · intro hdone
            exact absurd hdone (by simp [hc2])
          · exact .inr ⟨rfl, rfl⟩
        · have hc2' : cancelled cAt (processKabupatenParallel env cAt kabItems p.1 (st.t + 1)).2
              = false := by simpa using hc2
          have hfull : (processKabupatenParallel env cAt kabItems p.1 (st.t + 1)).1
              = kabItems.filterMap (fun ka => expectedKab env p.1 ka.1 ka.2) := by
            simpa [processKabupatenParallel] using
              kabLoop_fst env cAt p.1 kabItems [] (st.t + 1) hc2'
          have hexp : expectedProv env p
              = some ⟨p.1, p.2, (processKabupatenParallel env cAt kabItems p.1 (st.t + 1)).1⟩ := by
            simp [expectedProv, hkab, hfull]
          obtain ⟨j, hj, tail, hpro, htail, hclean, hck⟩ := ih _
          refine ⟨j + 1, Nat.succ_le_succ hj, tail, ?_, ?_, ?_, ?_⟩
          · rw [hpro]
            simp [hexp, List.take_succ_cons, List.filterMap_cons, List.append_assoc]
          · rcases htail with h | ⟨kabs, hlt, ht⟩
            · exact .inl h
            · exact .inr ⟨kabs, Nat.succ_lt_succ hlt, by simpa using ht⟩
          · intro hdone
            obtain ⟨hj', ht'⟩ := hclean hdone
            exact ⟨by simp [hj'], ht'⟩
          · rcases hck with ⟨h1, h2, h3⟩ | h
            · refine .inr ⟨?_, ?_⟩
              · rw [h1, h3]
              · rw [h2, h3]
            · exact .inr h

/-- Unfolding `scrapeAll` when the checkpoint loads and the province list
fetch succeeds. -/
theorem scrapeAll_eq (env : Env) (cAt : Option Nat)
    (ckpt0 : Option (Except Unit WilayahData)) (d0 : WilayahData)
    (items : List (Str × Str))
    (hload : loadCheckpoint ckpt0 = .ok d0) (hprov : env.provs = .ok items) :
    scrapeAll env cAt ckpt0 =
      if cancelled cAt (provLoop env cAt
          (items.filter (fun p => !((d0.Pro.map Provinsi.ID).contains p.1)))
          ⟨1, d0.Pro, ckpt0, false, none, none, [], none⟩).t then
        provLoop env cAt
          (items.filter (fun p => !((d0.Pro.map Provinsi.ID).contains p.1)))
          ⟨1, d0.Pro, ckpt0, false, none, none, [], none⟩
      else
        { provLoop env cAt
            (items.filter (fun p => !((d0.Pro.map Provinsi.ID).contains p.1)))
            ⟨1, d0.Pro, ckpt0, false, none, none, [], none⟩ with
          final := some ⟨(provLoop env cAt
            (items.filter (fun p => !((d0.Pro.map Provinsi.ID).contains p.1)))
            ⟨1, d0.Pro, ckpt0, false, none, none, [], none⟩).pro⟩,
          ckpt := none, ckptDeleted := true } := by
  simp [scrapeAll, hload, hprov]

/-- C3: assuming the run actually starts (checkpoint loads, province list
fetch succeeds), the final artifact is written and the checkpoint deleted iff
no cancellation was observed by the run's end; under cancellation neither
happens (checkpoint and temp are left in place — nothing ever deletes them),
and without cancellation the final artifact holds the full tree, the whole
pending list having been processed. -/
theorem c3_final_artifact (env : Env) (cAt : Option Nat)
    (ckpt0 : Option (Except Unit WilayahData)) (d0 : WilayahData)
    (items : List (Str × Str))
    (hload : loadCheckpoint ckpt0 = .ok d0) (hprov : env.provs = .ok items) :
    (((scrapeAll env cAt ckpt0).final ≠ none ∧ (scrapeAll env cAt ckpt0).ckptDeleted = true)
      ↔ cancelled cAt (scrapeAll env cAt ckpt0).t = false)
    ∧ (cancelled cAt (scrapeAll env cAt ckpt0).t = true →
        (scrapeAll env cAt ckpt0).final = none
        ∧ (scrapeAll env cAt ckpt0).ckptDeleted = false)
    ∧ (cancelled cAt (scrapeAll env cAt ckpt0).t = false →
        (scrapeAll env cAt ckpt0).final = some ⟨(scrapeAll env cAt ckpt0).pro⟩
        ∧ (scrapeAll env cAt ckpt0).ckpt = none
        ∧ (scrapeAll env cAt ckpt0).ckptDeleted = true
        ∧ (scrapeAll env cAt ckpt0).pro = d0.Pro
            ++ (items.filter (fun p => !((d0.Pro.map Provinsi.ID).contains p.1))).filterMap
              (expectedProv env)) := by
  rw [scrapeAll_eq env cAt ckpt0 d0 items hload hprov]
  set st2 := provLoop env cAt
    (items.filter (fun p => !((d0.Pro.map Provinsi.ID).contains p.1)))
    ⟨1, d0.Pro, ckpt0, false, none, none, [], none⟩ with hst2
  have hframe := provLoop_frame env cAt
    (items.filter (fun p => !((d0.Pro.map Provinsi.ID).contains p.1)))
    ⟨1, d0.Pro, ckpt0, false, none, none, [], none⟩
  rw [← hst2] at hframe
  by_cases hcc : cancelled cAt st2.t = true
  · rw [if_pos hcc]
    refine ⟨⟨fun hx => absurd hframe.1 hx.1, fun h => absurd (hcc.symm.trans h) (by decide)⟩,
      fun _ => ⟨hframe.1, hframe.2.2⟩,
      fun h => absurd (hcc.symm.trans h) (by decide)⟩
  · have hcc' : cancelled cAt st2.t = false := by simpa using hcc
    rw [if_neg hcc]
    refine ⟨by simp [hcc'], fun h => absurd (hcc'.symm.trans h) (by decide),
      fun _ => ⟨rfl, rfl, rfl, ?_⟩⟩
    obtain ⟨j, hj, tail, hpro, _, hclean, _⟩ := provLoop_char env cAt
      (items.filter (fun p => !((d0.Pro.map Provinsi.ID).contains p.1)))
      ⟨1, d0.Pro, ckpt0, false, none, none, [], none⟩
    rw [← hst2] at hpro hclean
    obtain ⟨hjlen, htail⟩ := hclean hcc'
    subst hjlen htail
    simpa [List.take_length] using hpro

/-- C1 (amended): if cancellation is signaled during a crawl, the run's tree —
and, whenever at least one province was appended, the checkpoint file, which
then holds exactly that tree — consists of the provinces fully completed
before cancellation (in order, fetch-failed ones skipped) followed by at most
one extra, partially-populated province: the one whose regency workers were
interrupted. Contrary to the original claim, that in-flight province is
appended and checkpointed; provinces not yet started are absent, and the final
artifact is not written. -/
theorem c1_amended (env : Env) (cAt : Option Nat)
    (ckpt0 : Option (Except Unit WilayahData)) (d0 : WilayahData)
    (items : List (Str × Str))
    (hload : loadCheckpoint ckpt0 = .ok d0) (hprov : env.provs = .ok items)
    (hcancel : cancelled cAt (scrapeAll env cAt ckpt0).t = true) :
    ∃ j, ∃ _ : j ≤ (items.filter (fun p => !((d0.Pro.map Provinsi.ID).contains p.1))).length,
    ∃ tail : List Provinsi,
      (scrapeAll env cAt ckpt0).pro
        = d0.Pro
          ++ ((items.filter (fun p => !((d0.Pro.map Provinsi.ID).contains p.1))).take j).filterMap
            (expectedProv env) ++ tail
      ∧ (tail = []
         ∨ ∃ kabs, ∃ hlt : j < (items.filter
              (fun p => !((d0.Pro.map Provinsi.ID).contains p.1))).length,
            tail = [⟨((items.filter (fun p => !((d0.Pro.map Provinsi.ID).contains p.1)))[j]).1,
                    ((items.filter (fun p => !((d0.Pro.map Provinsi.ID).contains p.1)))[j]).2,
                    kabs⟩])
      ∧ (scrapeAll env cAt ckpt0).final = none
      ∧ (scrapeAll env cAt ckpt0).ckptDeleted = false
      ∧ ((scrapeAll env cAt ckpt0).ckpt = some (.ok ⟨(scrapeAll env cAt ckpt0).pro⟩)
         ∨ ((scrapeAll env cAt ckpt0).ckpt = ckpt0
            ∧ (scrapeAll env cAt ckpt0).pro = d0.Pro)) := by
  rw [scrapeAll_eq env cAt ckpt0 d0 items hload hprov] at hcancel ⊢
  set st2 := provLoop env cAt
    (items.filter (fun p => !((d0.Pro.map Provinsi.ID).contains p.1)))
    ⟨1, d0.Pro, ckpt0, false, none, none, [], none⟩ with hst2
  have hcc : cancelled cAt st2.t = true := by
    by_cases h : cancelled cAt st2.t = true
    · exact h
    · rw [if_neg h] at hcancel
      exact absurd hcancel h
  rw [if_pos hcc]
  have hframe := provLoop_frame env cAt
    (items.filter (fun p => !((d0.Pro.map Provinsi.ID).contains p.1)))
    ⟨1, d0.Pro, ckpt0, false, none, none, [], none⟩
  rw [← hst2] at hframe
  obtain ⟨j, hj, tail, hpro, htail, _, hck⟩ := provLoop_char env cAt
    (items.filter (fun p => !((d0.Pro.map Provinsi.ID).contains p.1)))
    ⟨1, d0.Pro, ckpt0, false, none, none, [], none⟩
  rw [← hst2] at hpro hck
  refine ⟨j, hj, tail, hpro, htail, hframe.1, hframe.2.2, ?_⟩
  rcases hck with ⟨h1, _, h3⟩ | ⟨h1, _⟩
  · exact .inr ⟨h1, h3⟩
  · exact .inl h1

/-- Counterexample to C1 as stated: on the concrete upstream `envC1`, with
cancellation arriving (clock 8) while a worker is fetching the district list
of regency `02` of province `12`, the cancelled run's checkpoint DOES contain
province `12`, partially populated: its regency `02` has no districts although
the environment defines one (cf. `expectedProv`). The claim's assertion that a
province whose regency workers were interrupted mid-fetch never appears in the
checkpoint is therefore false on the code. -/
theorem c1_counterexample :
    (scrapeAll envC1 (some 8) none).ckpt
      = some (.ok ⟨[⟨['1', '1'], ['A'],
          [⟨['0', '1'], ['K'],
            [⟨['0', '0', '1'], ['X'], [⟨['0', '0', '0', '1'], ['D']⟩]⟩]⟩]⟩,
         ⟨['1', '2'], ['B'],
          [⟨['0', '1'], ['L'],
            [⟨['0', '0', '1'], ['X'], [⟨['0', '0', '0', '1'], ['D']⟩]⟩]⟩,
           ⟨['0', '2'], ['M'], []⟩]⟩]⟩)
    ∧ cancelled (some 8) (scrapeAll envC1 (some 8) none).t = true
    ∧ (scrapeAll envC1 (some 8) none).final = none
    ∧ expectedProv envC1 (['1', '2'], ['B'])
      = some ⟨['1', '2'], ['B'],
          [⟨['0', '1'], ['L'],
            [⟨['0', '0', '1'], ['X'], [⟨['0', '0', '0', '1'], ['D']⟩]⟩]⟩,
           ⟨['0', '2'], ['M'],
            [⟨['0', '0', '1'], ['X'], [⟨['0', '0', '0', '1'], ['D']⟩]⟩]⟩]⟩ := by
  refine ⟨by decide, by decide, by decide, by decide⟩

/-- The province subtree built for a pending province carries that province's
upstream code. -/
theorem expectedProv_id (env : Env) (q : Str × Str) (pr : Provinsi)
    (h : expectedProv env q = some pr) : pr.ID = q.1 := by
  cases hkq : env.kabs q.1 with
  | error e => rw [expectedProv, hkq] at h; cases h
  | ok kas =>
    rw [expectedProv, hkq, Option.some.injEq] at h
    rw [← h]

/-- C2: for every crawl run starting from a checkpoint holding provinces `S`,
every regency-list fetch the engine issues is for a province of the upstream
list that is not in `S`; and a run with no cancellation fetches exactly the
pending (non-`S`) provinces, producing the checkpointed provinces unchanged,
as a prefix, followed by the newly fetched provinces in upstream relative
order (those whose regency fetch succeeds). -/
theorem c2_resume_from_checkpoint (env : Env)
    (ckpt0 : Option (Except Unit WilayahData)) (d0 : WilayahData)
    (items : List (Str × Str))
    (hload : loadCheckpoint ckpt0 = .ok d0) (hprov : env.provs = .ok items) :
    (∀ cAt id, id ∈ (scrapeAll env cAt ckpt0).log →
        id ∈ items.map Prod.fst ∧ ¬ id ∈ d0.Pro.map Provinsi.ID)
    ∧ (scrapeAll env none ckpt0).log
        = (items.filter (fun p => !((d0.Pro.map Provinsi.ID).contains p.1))).map Prod.fst
    ∧ (scrapeAll env none ckpt0).pro
        = d0.Pro
          ++ (items.filter (fun p => !((d0.Pro.map Provinsi.ID).contains p.1))).filterMap
            (expectedProv env) := by
  have hmem : ∀ id, id ∈ (items.filter
      (fun p => !((d0.Pro.map Provinsi.ID).contains p.1))).map Prod.fst →
      id ∈ items.map Prod.fst ∧ ¬ id ∈ d0.Pro.map Provinsi.ID := by
    intro id hid
    obtain ⟨p, hpmem, hfst⟩ := List.mem_map.mp hid
    obtain ⟨hpitems, hpred⟩ := List.mem_filter.mp hpmem
    refine ⟨List.mem_map.mpr ⟨p, hpitems, hfst⟩, ?_⟩
    intro hin
    rw [← hfst] at hin
    have hcontains : (d0.Pro.map Provinsi.ID).contains p.1 = true :=
      List.elem_eq_true_of_mem hin
    rw [hcontains] at hpred
    simp at hpred
  refine ⟨?_, ?_, ?_⟩
  · intro cAt id hid
    rw [scrapeAll_eq env cAt ckpt0 d0 items hload hprov] at hid
    have hid' : id ∈ (provLoop env cAt
        (items.filter (fun p => !((d0.Pro.map Provinsi.ID).contains p.1)))
        ⟨1, d0.Pro, ckpt0, false, none, none, [], none⟩).log := by
      by_cases h : cancelled cAt (provLoop env cAt
          (items.filter (fun p => !((d0.Pro.map Provinsi.ID).contains p.1)))
          ⟨1, d0.Pro, ckpt0, false, none, none, [], none⟩).t = true
      · rwa [if_pos h] at hid
      · rwa [if_neg h] at hid
    rcases provLoop_log env cAt _ _ id hid' with h | h
    · cases h
    · exact hmem id h
  · rw [scrapeAll_eq env none ckpt0 d0 items hload hprov, if_neg (by simp [cancelled])]
    have := (provLoop_none env
      (items.filter (fun p => !((d0.Pro.map Provinsi.ID).contains p.1)))
      ⟨1, d0.Pro, ckpt0, false, none, none, [], none⟩).2
    simpa using this
  · rw [scrapeAll_eq env none ckpt0 d0 items hload hprov, if_neg (by simp [cancelled])]
    have := (provLoop_none env
      (items.filter (fun p => !((d0.Pro.map Provinsi.ID).contains p.1)))
      ⟨1, d0.Pro, ckpt0, false, none, none, [], none⟩).1
    simpa using this

/-- C6: a pending province whose regency-list fetch fails is skipped for this
pass — it is not appended to the result tree (its ID stays absent from the
completed set) — while the loop continues with the remaining pending
provinces: the run still produces the environment-defined subtree of every
other pending province whose fetch succeeds. -/
theorem c6_province_skip (env : Env)
    (ckpt0 : Option (Except Unit WilayahData)) (d0 : WilayahData)
    (items : List (Str × Str)) (p : Str × Str) (e : Unit)
    (hload : loadCheckpoint ckpt0 = .ok d0) (hprov : env.provs = .ok items)
    (hfail : env.kabs p.1 = .error e)
    (hp : p ∈ items.filter (fun q => !((d0.Pro.map Provinsi.ID).contains q.1)))
    (hnodup : ((items.filter
        (fun q => !((d0.Pro.map Provinsi.ID).contains q.1))).map Prod.fst).Nodup)
    (hnotin : ¬ p.1 ∈ d0.Pro.map Provinsi.ID) :
    (scrapeAll env none ckpt0).pro
      = d0.Pro
        ++ (items.filter (fun q => !((d0.Pro.map Provinsi.ID).contains q.1))).filterMap
          (expectedProv env)
    ∧ expectedProv env p = none
    ∧ ¬ p.1 ∈ (scrapeAll env none ckpt0).pro.map Provinsi.ID
    ∧ (∀ q pr, q ∈ items.filter (fun q => !((d0.Pro.map Provinsi.ID).contains q.1)) →
        expectedProv env q = some pr → pr ∈ (scrapeAll env none ckpt0).pro) := by
  have hexp : expectedProv env p = none := by simp [expectedProv, hfail]
  have hpro : (scrapeAll env none ckpt0).pro
      = d0.Pro
        ++ (items.filter (fun q => !((d0.Pro.map Provinsi.ID).contains q.1))).filterMap
          (expectedProv env) := by
    rw [scrapeAll_eq env none ckpt0 d0 items hload hprov, if_neg (by simp [cancelled])]
    have := (provLoop_none env
      (items.filter (fun q => !((d0.Pro.map Provinsi.ID).contains q.1)))
      ⟨1, d0.Pro, ckpt0, false, none, none, [], none⟩).1
    simpa using this
  refine ⟨hpro, hexp, ?_, ?_⟩
  · rw [hpro]
    intro hin
    rw [List.map_append] at hin
    rcases List.mem_append.mp hin with h | h
    · exact hnotin h
    · obtain ⟨pr, hpr, hid⟩ := List.mem_map.mp h
      obtain ⟨q, hq, hqe⟩ := List.mem_filterMap.mp hpr
      have hq1 : q.1 = p.1 := by rw [← expectedProv_id env q pr hqe, hid]
      have : q = p := List.inj_on_of_nodup_map hnodup hq hp hq1
      rw [this] at hqe
      rw [hexp] at hqe
      cases hqe
  · intro q pr hq hqe
    rw [hpro]
    exact List.mem_append.mpr (.inr (List.mem_filterMap.mpr ⟨q, hq, hqe⟩))

/-- C5 (amended): a village-list fetch failure for a district causes that
district to be dropped from the regency's subtree (the worker returns `nil`
for it — no partial village list is kept), while the enclosing regency is
still returned, containing its other districts. -/
theorem c5_amended (env : Env) (pid kid keid : Str) (e : Unit)
    (hde : env.desas pid kid keid = .error e) :
    (∀ cAt knm t, (processKecamatan env cAt keid knm pid kid t).1 = none)
    ∧ (∀ knm, expectedKec env pid kid keid knm = none)
    ∧ (∀ kanm t ks, env.kecs pid kid = .ok ks →
        (processKabupaten env none kid kanm pid t).1
          = some ⟨kid, kanm, ks.filterMap (fun ke => expectedKec env pid kid ke.1 ke.2)⟩) := by
  refine ⟨?_, ?_, ?_⟩
  · intro cAt knm t
    by_cases hct : cancelled cAt t = true
    · simp [processKecamatan, hct]
    · have hct' : cancelled cAt t = false := by simpa using hct
      simp [processKecamatan, hct', hde]
  · intro knm
    simp [expectedKec, hde]
  · intro kanm t ks hks
    rw [processKabupaten_fst env none kid kanm pid t rfl rfl, expectedKab, hks]

/-- Counterexample to C5 as stated: on the concrete upstream `envC5`, the
village fetch for district `001` of regency `01` fails, and the engine drops
district `001` from the regency's subtree entirely — it does not return it
with a partial village list; only district `002` survives. -/
theorem c5_counterexample :
    (processKabupaten envC5 none ['0', '1'] ['K'] ['1', '1'] 0).1
      = some ⟨['0', '1'], ['K'],
          [⟨['0', '0', '2'], ['B'], [⟨['0', '0', '0', '1'], ['D']⟩]⟩]⟩
    ∧ envC5.kecs ['1', '1'] ['0', '1']
      = .ok [(['0', '0', '1'], ['A']), (['0', '0', '2'], ['B'])]
    ∧ envC5.desas ['1', '1'] ['0', '1'] ['0', '0', '1'] = .error () := by
  exact ⟨by decide, rfl, rfl⟩

/-- Witness for C1 (amended) on the concrete cancelled run over `envC1`. -/
theorem c1_witness :
    ∃ j, ∃ _ : j ≤ (itemsC1.filter
        (fun p => !((([] : List Provinsi).map Provinsi.ID).contains p.1))).length,
    ∃ tail : List Provinsi,
      (scrapeAll envC1 (some 8) none).pro
        = []
          ++ ((itemsC1.filter
              (fun p => !((([] : List Provinsi).map Provinsi.ID).contains p.1))).take j).filterMap
            (expectedProv envC1) ++ tail
      ∧ (tail = []
         ∨ ∃ kabs, ∃ hlt : j < (itemsC1.filter
              (fun p => !((([] : List Provinsi).map Provinsi.ID).contains p.1))).length,
            tail = [⟨((itemsC1.filter
                  (fun p => !((([] : List Provinsi).map Provinsi.ID).contains p.1)))[j]).1,
                ((itemsC1.filter
                  (fun p => !((([] : List Provinsi).map Provinsi.ID).contains p.1)))[j]).2,
                kabs⟩])
      ∧ (scrapeAll envC1 (some 8) none).final = none
      ∧ (scrapeAll envC1 (some 8) none).ckptDeleted = false
      ∧ ((scrapeAll envC1 (some 8) none).ckpt
            = some (.ok ⟨(scrapeAll envC1 (some 8) none).pro⟩)
         ∨ ((scrapeAll envC1 (some 8) none).ckpt = none
            ∧ (scrapeAll envC1 (some 8) none).pro = [])) :=
  c1_amended envC1 (some 8) none ⟨[]⟩ itemsC1 rfl rfl (by decide)

/-- Witness for C2 on `envC1`, resuming from a checkpoint already holding
province `11`. -/
theorem c2_witness :
    (∀ cAt id, id ∈ (scrapeAll envC1 cAt ckptC2).log →
        id ∈ itemsC1.map Prod.fst ∧ ¬ id ∈ [prov11].map Provinsi.ID)
    ∧ (scrapeAll envC1 none ckptC2).log
        = (itemsC1.filter (fun p => !(([prov11].map Provinsi.ID).contains p.1))).map Prod.fst
    ∧ (scrapeAll envC1 none ckptC2).pro
        = [prov11]
          ++ (itemsC1.filter (fun p => !(([prov11].map Provinsi.ID).contains p.1))).filterMap
            (expectedProv envC1) :=
  c2_resume_from_checkpoint envC1 ckptC2 ⟨[prov11]⟩ itemsC1 rfl rfl

/-- Witness for C3 on an uncancelled run over `envC1`. -/
theorem c3_witness :
    (((scrapeAll envC1 none none).final ≠ none
        ∧ (scrapeAll envC1 none none).ckptDeleted = true)
      ↔ cancelled none (scrapeAll envC1 none none).t = false)
    ∧ (cancelled none (scrapeAll envC1 none none).t = true →
        (scrapeAll envC1 none none).final = none
        ∧ (scrapeAll envC1 none none).ckptDeleted = false)
    ∧ (cancelled none (scrapeAll envC1 none none).t = false →
        (scrapeAll envC1 none none).final = some ⟨(scrapeAll envC1 none none).pro⟩
        ∧ (scrapeAll envC1 none none).ckpt = none
        ∧ (scrapeAll envC1 none none).ckptDeleted = true
        ∧ (scrapeAll envC1 none none).pro = []
            ++ (itemsC1.filter
                (fun p => !((([] : List Provinsi).map Provinsi.ID).contains p.1))).filterMap
              (expectedProv envC1)) :=
  c3_final_artifact envC1 none none ⟨[]⟩ itemsC1 rfl rfl

/-- Witness for C5 (amended) on `envC5`: district `001` (failing village
fetch) is dropped, the regency keeps district `002`. -/
theorem c5_witness :
    (processKecamatan envC5 none ['0', '0', '1'] ['A'] ['1', '1'] ['0', '1'] 3).1 = none
    ∧ expectedKec envC5 ['1', '1'] ['0', '1'] ['0', '0', '1'] ['A'] = none
    ∧ (processKabupaten envC5 none ['0', '1'] ['K'] ['1', '1'] 0).1
        = some ⟨['0', '1'], ['K'],
            ([(['0', '0', '1'], ['A']), (['0', '0', '2'], ['B'])] : List (Str × Str)).filterMap
              (fun ke => expectedKec envC5 ['1', '1'] ['0', '1'] ke.1 ke.2)⟩ :=
  ⟨(c5_amended envC5 ['1', '1'] ['0', '1'] ['0', '0', '1'] () rfl).1 none ['A'] 3,
   (c5_amended envC5 ['1', '1'] ['0', '1'] ['0', '0', '1'] () rfl).2.1 ['A'],
   (c5_amended envC5 ['1', '1'] ['0', '1'] ['0', '0', '1'] () rfl).2.2 ['K'] 0 _ rfl⟩

/-- Witness for C6 on `envC6`: province `12`, whose regency fetch fails, is
skipped; provinces `11` and `13` are still produced. -/
theorem c6_witness :
    (scrapeAll envC6 none none).pro
      = []
        ++ (itemsC6.filter
            (fun q => !((([] : List Provinsi).map Provinsi.ID).contains q.1))).filterMap
          (expectedProv envC6)
    ∧ expectedProv envC6 (['1', '2'], ['B']) = none
    ∧ ¬ ['1', '2'] ∈ (scrapeAll envC6 none none).pro.map Provinsi.ID
    ∧ (∀ q pr, q ∈ itemsC6.filter
          (fun q => !((([] : List Provinsi).map Provinsi.ID).contains q.1)) →
        expectedProv envC6 q = some pr → pr ∈ (scrapeAll envC6 none none).pro) :=
  c6_province_skip envC6 none ⟨[]⟩ itemsC6 (['1', '2'], ['B']) () rfl rfl rfl
    (by decide) (by decide) (by decide)

/-- `raF` on the empty string. -/
theorem raF_nil (p r : Str) (f : Nat) : raF p r f [] = [] := by
  cases f <;> rfl

/-- The fuel of `raF` is irrelevant once it covers the string length. -/
theorem raF_eq_replaceAll (p r : Str) :
    ∀ f s, s.length ≤ f → raF p r f s = replaceAll p r s := by
  intro f
  induction f using Nat.strong_induction_on with
  | _ f ih =>
    intro s hs
    cases s with
    | nil => simp [replaceAll, raF_nil]
    | cons c rest =>
      cases f with
      | zero => simp at hs
      | succ g =>
        have hrest : rest.length ≤ g := by simpa using hs
        rw [replaceAll]
        show raF p r (g + 1) (c :: rest) = raF p r (rest.length + 1) (c :: rest)
        simp only [raF]
        by_cases hg : (!p.isEmpty && p.isPrefixOf (c :: rest)) = true
        · rw [if_pos hg, if_pos hg]
          have hpne : p ≠ [] := by
            rcases Bool.and_eq_true_iff.mp hg with ⟨h1, _⟩
            simpa using h1
          have hplen : 1 ≤ p.length := by
            cases p
            · exact absurd rfl hpne
            · simp
          have hdlen : ((c :: rest).drop p.length).length ≤ rest.length := by
            simp only [List.length_drop, List.length_cons]
            omega
          rw [ih g (Nat.lt_succ_self g) _ (le_trans hdlen hrest),
            ih rest.length (Nat.lt_succ_of_le hrest) _ hdlen]
        · rw [if_neg hg, if_neg hg]
          rw [ih g (Nat.lt_succ_self g) rest hrest,
            ih rest.length (Nat.lt_succ_of_le hrest) rest (le_refl _)]

/-- One-step unfolding of `replaceAll` on a nonempty string. -/
theorem replaceAll_cons (p r : Str) (c : Char) (rest : Str) :
    replaceAll p r (c :: rest)
      = if (!p.isEmpty && p.isPrefixOf (c :: rest)) = true then
          r ++ replaceAll p r ((c :: rest).drop p.length)
        else c :: replaceAll p r rest := by
  rw [replaceAll]
  show raF p r (rest.length + 1) (c :: rest) = _
  simp only [raF]
  by_cases hg : (!p.isEmpty && p.isPrefixOf (c :: rest)) = true
  · rw [if_pos hg, if_pos hg]
    congr 1
    have hpne : p ≠ [] := by
      rcases Bool.and_eq_true_iff.mp hg with ⟨h1, _⟩
      simpa using h1
    have hplen : 1 ≤ p.length := by
      cases p
      · exact absurd rfl hpne
      · simp
    exact raF_eq_replaceAll p r rest.length _
      (by simp only [List.length_drop, List.length_cons]; omega)
  · rw [if_neg hg, if_neg hg]
    rfl

/-- A pattern occurring at the start of a string occurs in it. -/
theorem occurs_of_start {l x : Str} (h : l <+: x) : l <:+: x := by
  obtain ⟨u, hu⟩ := h
  exact ⟨[], u, by simpa using hu⟩

/-- A pattern occurring in a tail segment occurs in the whole string. -/
theorem occurs_drop {l s : Str} {n : Nat} (h : l <:+: s.drop n) : l <:+: s := by
  obtain ⟨u, v, huv⟩ := h
  obtain ⟨pre, hpre⟩ := List.drop_suffix n s
  exact ⟨pre ++ u, v, by rw [← hpre, ← huv]; simp⟩

/-- `strings.ReplaceAll` is the identity when the pattern does not occur. -/
theorem replaceAll_of_not_occurs (p r : Str) (_hp : p ≠ []) :
    ∀ s, ¬ p <:+: s → replaceAll p r s = s := by
  intro s
  induction s with
  | nil => intro _; rfl
  | cons c rest ih =>
    intro hno
    have hgneg : ¬ ((!p.isEmpty && p.isPrefixOf (c :: rest)) = true) := by
      intro hg
      rcases Bool.and_eq_true_iff.mp hg with ⟨_, h2⟩
      exact hno (occurs_of_start (by simpa using h2))
    rw [replaceAll_cons, if_neg hgneg, ih (fun h => hno (List.infix_cons h))]

/-- A replacement-character-free string standing at the start of `raF`'s
output already stood at the start of the input: the inserted characters are
all copies of `c`, and a removal always leaves an inserted `c` between the
surviving pieces. -/
theorem raF_seg (p : Str) (c : Char) :
    ∀ u : Str, ¬ c ∈ u → ∀ f s, u <+: raF p [c] f s → u <+: s := by
  intro u
  induction u with
  | nil => intro _ f s _; exact List.nil_prefix
  | cons x u' ih =>
    intro hcu f s hpre
    cases s with
    | nil => rw [raF_nil] at hpre; simp at hpre
    | cons a rest =>
      cases f with
      | zero => exact hpre
      | succ g =>
        by_cases hg : (!p.isEmpty && p.isPrefixOf (a :: rest)) = true
        · rw [show raF p [c] (g + 1) (a :: rest)
              = [c] ++ raF p [c] g ((a :: rest).drop p.length) from by
            simp only [raF]; rw [if_pos hg]] at hpre
          rcases List.cons_prefix_cons.mp hpre with ⟨hx, _⟩
          subst hx
          exact absurd (List.mem_cons_self x u') hcu
        · rw [show raF p [c] (g + 1) (a :: rest) = a :: raF p [c] g rest from by
            simp only [raF]; rw [if_neg hg]] at hpre
          rcases List.cons_prefix_cons.mp hpre with ⟨hx, hrest⟩
          exact List.cons_prefix_cons.mpr
            ⟨hx, ih (fun h => hcu (List.mem_cons_of_mem x h)) g rest hrest⟩

/-- Replacing a backslash-anchored escape with a non-backslash character never
creates a double backslash: on input free of double backslashes, the output of
`raF` is too. -/
theorem raF_noDD (t : Str) (c : Char) (hc : c ≠ bsl) :
    ∀ f s, ¬ [bsl, bsl] <:+: s → ¬ [bsl, bsl] <:+: raF (bsl :: t) [c] f s := by
  intro f
  induction f with
  | zero => intro s hs; exact hs
  | succ g ihg =>
    intro s hs
    cases s with
    | nil => rw [raF_nil]; simp
    | cons a rest =>
      by_cases hg2 : (!(bsl :: t).isEmpty && (bsl :: t).isPrefixOf (a :: rest)) = true
      · rw [show raF (bsl :: t) [c] (g + 1) (a :: rest)
            = [c] ++ raF (bsl :: t) [c] g ((a :: rest).drop (bsl :: t).length) from by
          simp only [raF]; rw [if_pos hg2]]
        intro hocc
        rcases List.infix_cons_iff.mp hocc with hpre | htail
        · rcases List.cons_prefix_cons.mp hpre with ⟨hbc, _⟩
          exact hc hbc.symm
        · exact ihg _ (fun h => hs (occurs_drop h)) htail
      · rw [show raF (bsl :: t) [c] (g + 1) (a :: rest) = a :: raF (bsl :: t) [c] g rest from by
          simp only [raF]; rw [if_neg hg2]]
        intro hocc
        have hrest : ¬ [bsl, bsl] <:+: rest := fun h => hs (List.infix_cons h)
        rcases List.infix_cons_iff.mp hocc with hpre | htail
        · rcases List.cons_prefix_cons.mp hpre with ⟨hab, hbtail⟩
          subst hab
          cases rest with
          | nil => rw [raF_nil] at hbtail; simp at hbtail
          | cons d rest' =>
            have hd : d ≠ bsl := by
              intro hdd
              subst hdd
              exact hs (occurs_of_start (by simp))
            cases g with
            | zero =>
              rcases List.cons_prefix_cons.mp hbtail with ⟨hbd, _⟩
              exact hd hbd.symm
            | succ g' =>
              have hgd : ¬ ((!(bsl :: t).isEmpty && (bsl :: t).isPrefixOf (d :: rest')) = true) := by
                intro hcontra
                rcases Bool.and_eq_true_iff.mp hcontra with ⟨_, h2⟩
                have hpd : (bsl :: t) <+: (d :: rest') := by simpa using h2
                rcases List.cons_prefix_cons.mp hpd with ⟨hbd, _⟩
                exact hd hbd.symm
              rw [show raF (bsl :: t) [c] (g' + 1) (d :: rest')
                  = d :: raF (bsl :: t) [c] g' rest' from by
                simp only [raF]; rw [if_neg hgd]] at hbtail
              rcases List.cons_prefix_cons.mp hbtail with ⟨hbd, _⟩
              exact hd hbd.symm
        · exact ihg rest hrest htail

/-- After `raF` eliminates all occurrences of its own pattern `bsl :: x :: t'`
on a double-backslash-free input, no occurrence of the pattern remains
(assuming the replacement character can only re-enter the pattern as its first
post-backslash character, which the double-backslash freedom rules out). -/
theorem raF_no_self (x : Char) (t' : Str) (c : Char) (hc : c ≠ bsl)
    (hct : ¬ c ∈ t') :
    ∀ f s, s.length ≤ f → ¬ [bsl, bsl] <:+: s →
      ¬ (bsl :: x :: t') <:+: raF (bsl :: x :: t') [c] f s := by
  intro f
  induction f with
  | zero =>
    intro s hlen _
    have hnil : s = [] := List.length_eq_zero.mp (Nat.le_zero.mp hlen)
    subst hnil
    rw [raF_nil]
    simp
  | succ g ihg =>
    intro s hlen hs
    cases s with
    | nil => rw [raF_nil]; simp
    | cons a rest =>
      have hlrest : rest.length ≤ g := by simpa using hlen
      by_cases hg2 : (!(bsl :: x :: t').isEmpty && (bsl :: x :: t').isPrefixOf (a :: rest)) = true
      · rw [show raF (bsl :: x :: t') [c] (g + 1) (a :: rest)
            = [c] ++ raF (bsl :: x :: t') [c] g ((a :: rest).drop (bsl :: x :: t').length) from by
          simp only [raF]; rw [if_pos hg2]]
        intro hocc
        rcases List.infix_cons_iff.mp hocc with hpre | htail
        · rcases List.cons_prefix_cons.mp hpre with ⟨hbc, _⟩
          exact hc hbc.symm
        · refine ihg _ ?_ (fun h => hs (occurs_drop h)) htail
          simp only [List.length_drop, List.length_cons]
          omega
      · rw [show raF (bsl :: x :: t') [c] (g + 1) (a :: rest)
            = a :: raF (bsl :: x :: t') [c] g rest from by
          simp only [raF]; rw [if_neg hg2]]
        intro hocc
        rcases List.infix_cons_iff.mp hocc with hpre | htail
        · rcases List.cons_prefix_cons.mp hpre with ⟨hab, httail⟩
          subst hab
          cases rest with
          | nil =>
            rw [raF_nil, List.prefix_nil] at httail
            cases httail
          | cons d rest' =>
            have hd : d ≠ bsl := by
              intro hdd
              subst hdd
              exact hs (occurs_of_start (by simp))
            have hfromtail : (x :: t') <+: (d :: rest') → False := by
              intro hxd
              apply hg2
              refine Bool.and_eq_true_iff.mpr ⟨by simp, ?_⟩
              have hps : (bsl :: x :: t') <+: (bsl :: d :: rest') :=
                List.cons_prefix_cons.mpr ⟨rfl, hxd⟩
              simpa using hps
            cases g with
            | zero => simp at hlrest
            | succ g' =>
              have hgd : ¬ ((!(bsl :: x :: t').isEmpty
                  && (bsl :: x :: t').isPrefixOf (d :: rest')) = true) := by
                intro hcontra
                rcases Bool.and_eq_true_iff.mp hcontra with ⟨_, h2⟩
                have hpd : (bsl :: x :: t') <+: (d :: rest') := by simpa using h2
                rcases List.cons_prefix_cons.mp hpd with ⟨hbd, _⟩
                exact hd hbd.symm
              rw [show raF (bsl :: x :: t') [c] (g' + 1) (d :: rest')
                  = d :: raF (bsl :: x :: t') [c] g' rest' from by
                simp only [raF]; rw [if_neg hgd]] at httail
              rcases List.cons_prefix_cons.mp httail with ⟨hxd, ht'⟩
              exact hfromtail (List.cons_prefix_cons.mpr
                ⟨hxd, raF_seg (bsl :: x :: t') c t' hct g' rest' ht'⟩)
        · exact ihg rest hlrest (fun h => hs (List.infix_cons h)) htail

/-- `raF` for one escape pattern creates no occurrence of another
backslash-anchored pattern `bsl :: y :: u'` on a double-backslash-free input,
provided the replacement character does not occur in `u'`. -/
theorem raF_keeps_absent (t : Str) (c : Char) (y : Char) (u' : Str)
    (hc : c ≠ bsl) (hcu : ¬ c ∈ u') :
    ∀ f s, ¬ [bsl, bsl] <:+: s → ¬ (bsl :: y :: u') <:+: s →
      ¬ (bsl :: y :: u') <:+: raF (bsl :: t) [c] f s := by
  intro f
  induction f with
  | zero => intro s _ hq; exact hq
  | succ g ihg =>
    intro s hs hq
    cases s with
    | nil => rw [raF_nil]; simp
    | cons a rest =>
      by_cases hg2 : (!(bsl :: t).isEmpty && (bsl :: t).isPrefixOf (a :: rest)) = true
      · rw [show raF (bsl :: t) [c] (g + 1) (a :: rest)
            = [c] ++ raF (bsl :: t) [c] g ((a :: rest).drop (bsl :: t).length) from by
          simp only [raF]; rw [if_pos hg2]]
        intro hocc
        rcases List.infix_cons_iff.mp hocc with hpre | htail
        · rcases List.cons_prefix_cons.mp hpre with ⟨hbc, _⟩
          exact hc hbc.symm
        · exact ihg _ (fun h => hs (occurs_drop h)) (fun h => hq (occurs_drop h)) htail
      · rw [show raF (bsl :: t) [c] (g + 1) (a :: rest) = a :: raF (bsl :: t) [c] g rest from by
          simp only [raF]; rw [if_neg hg2]]
        intro hocc
        rcases List.infix_cons_iff.mp hocc with hpre | htail
        · rcases List.cons_prefix_cons.mp hpre with ⟨hab, hutail⟩
          subst hab
          cases rest with
          | nil => rw [raF_nil, List.prefix_nil] at hutail; cases hutail
          | cons d rest' =>
            have hd : d ≠ bsl := by
              intro hdd
              subst hdd
              exact hs (occurs_of_start (by simp))
            have hfromtail : (y :: u') <+: (d :: rest') → False := by
              intro hyd
              exact hq (occurs_of_start (List.cons_prefix_cons.mpr ⟨rfl, hyd⟩))
            cases g with
            | zero => exact hfromtail hutail
            | succ g' =>
              have hgd : ¬ ((!(bsl :: t).isEmpty && (bsl :: t).isPrefixOf (d :: rest')) = true) := by
                intro hcontra
                rcases Bool.and_eq_true_iff.mp hcontra with ⟨_, h2⟩
                have hpd : (bsl :: t) <+: (d :: rest') := by simpa using h2
                rcases List.cons_prefix_cons.mp hpd with ⟨hbd, _⟩
                exact hd hbd.symm
              rw [show raF (bsl :: t) [c] (g' + 1) (d :: rest')
                  = d :: raF (bsl :: t) [c] g' rest' from by
                simp only [raF]; rw [if_neg hgd]] at hutail
              rcases List.cons_prefix_cons.mp hutail with ⟨hyd, hu'⟩
              exact hfromtail (List.cons_prefix_cons.mpr
                ⟨hyd, raF_seg (bsl :: t) c u' hcu g' rest' hu'⟩)
        · exact ihg rest (fun h => hs (List.infix_cons h)) (fun h => hq (List.infix_cons h)) htail

/-- `normalizeText` is the six `strings.ReplaceAll` stages in source order. -/
theorem normalizeText_eq (s : Str) :
    normalizeText s
      = replaceAll [bsl, 'u', '0', '0', '2', '2'] [dq]
          (replaceAll [bsl, 'u', '0', '0', '2', '7'] [sq]
            (replaceAll [bsl, slashc] [slashc]
              (replaceAll [bsl, bsl] [bsl]
                (replaceAll [bsl, dq] [dq]
                  (replaceAll [bsl, sq] [sq] s))))) := rfl

/-- On input free of double backslashes, one pass of `normalizeText` removes
every recognized escape sequence and leaves no double backslash. -/
theorem normalizeText_clean (s : Str) (h : ¬ [bsl, bsl] <:+: s) :
    (¬ [bsl, bsl] <:+: normalizeText s)
    ∧ (¬ [bsl, sq] <:+: normalizeText s)
    ∧ (¬ [bsl, dq] <:+: normalizeText s)
    ∧ (¬ [bsl, slashc] <:+: normalizeText s)
    ∧ (¬ [bsl, 'u', '0', '0', '2', '7'] <:+: normalizeText s)
    ∧ (¬ [bsl, 'u', '0', '0', '2', '2'] <:+: normalizeText s) := by
  rw [normalizeText_eq]
  set s1 := replaceAll [bsl, sq] [sq] s with hs1
  have hd1 : ¬ [bsl, bsl] <:+: s1 := raF_noDD [sq] sq (by decide) s.length s h
  have he1 : ¬ [bsl, sq] <:+: s1 :=
    raF_no_self sq [] sq (by decide) (by decide) s.length s (le_refl _) h
  set s2 := replaceAll [bsl, dq] [dq] s1 with hs2
  have hd2 : ¬ [bsl, bsl] <:+: s2 := raF_noDD [dq] dq (by decide) s1.length s1 hd1
  have he2 : ¬ [bsl, dq] <:+: s2 :=
    raF_no_self dq [] dq (by decide) (by decide) s1.length s1 (le_refl _) hd1
  have hk21 : ¬ [bsl, sq] <:+: s2 :=
    raF_keeps_absent [dq] dq sq [] (by decide) (by decide) s1.length s1 hd1 he1
  have hs3 : replaceAll [bsl, bsl] [bsl] s2 = s2 :=
    replaceAll_of_not_occurs _ _ (by decide) s2 hd2
  rw [hs3]
  set s4 := replaceAll [bsl, slashc] [slashc] s2 with hs4
  have hd4 : ¬ [bsl, bsl] <:+: s4 := raF_noDD [slashc] slashc (by decide) s2.length s2 hd2
  have he4 : ¬ [bsl, slashc] <:+: s4 :=
    raF_no_self slashc [] slashc (by decide) (by decide) s2.length s2 (le_refl _) hd2
  have hk41 : ¬ [bsl, sq] <:+: s4 :=
    raF_keeps_absent [slashc] slashc sq [] (by decide) (by decide) s2.length s2 hd2 hk21
  have hk42 : ¬ [bsl, dq] <:+: s4 :=
    raF_keeps_absent [slashc] slashc dq [] (by decide) (by decide) s2.length s2 hd2 he2
  set s5 := replaceAll [bsl, 'u', '0', '0', '2', '7'] [sq] s4 with hs5
  have hd5 : ¬ [bsl, bsl] <:+: s5 :=
    raF_noDD ['u', '0', '0', '2', '7'] sq (by decide) s4.length s4 hd4
  have he5 : ¬ [bsl, 'u', '0', '0', '2', '7'] <:+: s5 :=
    raF_no_self 'u' ['0', '0', '2', '7'] sq (by decide) (by decide) s4.length s4 (le_refl _) hd4
  have hk51 : ¬ [bsl, sq] <:+: s5 :=
    raF_keeps_absent ['u', '0', '0', '2', '7'] sq sq [] (by decide) (by decide)
      s4.length s4 hd4 hk41
  have hk52 : ¬ [bsl, dq] <:+: s5 :=
    raF_keeps_absent ['u', '0', '0', '2', '7'] sq dq [] (by decide) (by decide)
      s4.length s4 hd4 hk42
  have hk54 : ¬ [bsl, slashc] <:+: s5 :=
    raF_keeps_absent ['u', '0', '0', '2', '7'] sq slashc [] (by decide) (by decide)
      s4.length s4 hd4 he4
  set s6 := replaceAll [bsl, 'u', '0', '0', '2', '2'] [dq] s5 with hs6
  have hd6 : ¬ [bsl, bsl] <:+: s6 :=
    raF_noDD ['u', '0', '0', '2', '2'] dq (by decide) s5.length s5 hd5
  have he6 : ¬ [bsl, 'u', '0', '0', '2', '2'] <:+: s6 :=
    raF_no_self 'u' ['0', '0', '2', '2'] dq (by decide) (by decide) s5.length s5 (le_refl _) hd5
  have hk61 : ¬ [bsl, sq] <:+: s6 :=
    raF_keeps_absent ['u', '0', '0', '2', '2'] dq sq [] (by decide) (by decide)
      s5.length s5 hd5 hk51
  have hk62 : ¬ [bsl, dq] <:+: s6 :=
    raF_keeps_absent ['u', '0', '0', '2', '2'] dq dq [] (by decide) (by decide)
      s5.length s5 hd5 hk52
  have hk64 : ¬ [bsl, slashc] <:+: s6 :=
    raF_keeps_absent ['u', '0', '0', '2', '2'] dq slashc [] (by decide) (by decide)
      s5.length s5 hd5 hk54
  have hk65 : ¬ [bsl, 'u', '0', '0', '2', '7'] <:+: s6 :=
    raF_keeps_absent ['u', '0', '0', '2', '2'] dq 'u' ['0', '0', '2', '7'] (by decide)
      (by decide) s5.length s5 hd5 he5
  exact ⟨hd6, hk61, hk62, hk64, hk65, he6⟩

/-- C7 (amended): `normalizeText` is idempotent on every input free of double
backslashes — one pass then removes all recognized escape sequences, so a
second pass changes nothing. On general input it is NOT idempotent (see the
counterexample: a doubly-escaped backslash followed by a quote is unescaped
one level further by each pass). -/
theorem c7_amended (s : Str) (h : ¬ [bsl, bsl] <:+: s) :
    normalizeText (normalizeText s) = normalizeText s
    ∧ ∀ pr ∈ replacements, ¬ pr.1 <:+: normalizeText s := by
  obtain ⟨hd, h1, h2, h4, h5, h6⟩ := normalizeText_clean s h
  constructor
  · rw [normalizeText_eq (normalizeText s)]
    rw [replaceAll_of_not_occurs _ _ (by decide) _ h1,
      replaceAll_of_not_occurs _ _ (by decide) _ h2,
      replaceAll_of_not_occurs _ _ (by decide) _ hd,
      replaceAll_of_not_occurs _ _ (by decide) _ h4,
      replaceAll_of_not_occurs _ _ (by decide) _ h5,
      replaceAll_of_not_occurs _ _ (by decide) _ h6]
  · intro pr hpr
    simp only [replacements, List.mem_cons, List.not_mem_nil, or_false] at hpr
    rcases hpr with rfl | rfl | rfl | rfl | rfl | rfl
    · exact h1
    · exact h2
    · exact hd
    · exact h4
    · exact h5
    · exact h6

/-- Counterexample to C7 as stated: `normalizeText` is not idempotent. On the
input `\\'` (backslash, backslash, quote) one pass yields `\'` — which still
contains the recognized escape sequence `\'` — and a second pass yields `'`.
(The Go map iteration order is unspecified; this refutes idempotence for the
embedded source-textual order, and analogous doubly-escaped inputs fail for
every fixed order.) -/
theorem c7_counterexample :
    normalizeText (normalizeText [bsl, bsl, sq]) ≠ normalizeText [bsl, bsl, sq] := by
  decide

/-- Witness for C7 (amended) on the single-escaped input `\'a`. -/
theorem c7_witness :
    (¬ [bsl, bsl] <:+: [bsl, sq, 'a'])
    ∧ (normalizeText (normalizeText [bsl, sq, 'a']) = normalizeText [bsl, sq, 'a']
       ∧ ∀ pr ∈ replacements, ¬ pr.1 <:+: normalizeText [bsl, sq, 'a']) :=
  ⟨by decide, c7_amended [bsl, sq, 'a'] (by decide)⟩

end ApiWilayah
